import Mathlib

/-!
Shallow embedding of the varaamo time-slot engine.

Instants are modelled as integers (minutes on a single UTC timeline); a
moment value carries no timezone, so "normalized to UTC" is the identity on
the embedded instant.  Durations (the slot `period`) are natural numbers in
the same unit.  JavaScript's missing (`undefined`) arguments are modelled by
`Option`; the functions are total, which embeds the "never throws" behaviour
of the source.

The `utils/timeUtils` module itself is not among the sources (only its test
suite `src/app/utils/__tests__/timeUtils.spec.js` is), so `getTimeSlots`,
`getDateStartAndEndTimes` and `prettifyHours` are modelled from the spec, as
indicated in their doc comments.  `TimeControls.js` is present and
`getEndTimeOptions` / `updateWithTime` are embedded from that source.
-/

namespace Varaamo

/-- A reservation interval, the `{begin, end}` records consumed by
`getTimeSlots`.  The source field `end` is a reserved word in Lean and is
embedded as `end_`. -/
structure Reservation where
  begin : Int
  end_ : Int
deriving DecidableEq

/-- A time slot as produced by `getTimeSlots`; the string presentation
fields (`asISOString`, `asString`) are pure formatting of `start`/`end` and
are not embedded.  The source field `end` is embedded as `end_`. -/
structure Slot where
  start : Int
  end_ : Int
  reserved : Bool
  editing : Bool
  reservationStarting : Bool
  reservationEnding : Bool
deriving DecidableEq

/-- Modelled from the spec: the half-open overlap test of `getTimeSlots`
(`utils/timeUtils`, absent from the sources): a slot `[st, en)` overlaps a
reservation iff `slot.start < interval.end AND slot.end > interval.begin`. -/
def overlapsB (st en : Int) (r : Reservation) : Bool :=
  decide (st < r.end_) && decide (en > r.begin)

/-- Modelled from the spec: whether a slot `[st, en)` overlaps any interval
of the list `rs`. -/
def slotReserved (rs : List Reservation) (st en : Int) : Bool :=
  rs.any (overlapsB st en)

/-- Start instant of the `i`-th slot when partitioning from `s` with period
`p`. -/
def slotStart (s : Int) (p : Nat) (i : Nat) : Int :=
  s + (i : Int) * (p : Int)

/-- End instant of the `i`-th slot: one period after its start, i.e. the
start of slot `i + 1`. -/
def slotEnd (s : Int) (p : Nat) (i : Nat) : Int :=
  slotStart s p (i + 1)

/-- Modelled from the spec: the combined reserved-or-editing state of the
`j`-th slot, used for the `reservationStarting` / `reservationEnding`
neighbour comparison. -/
def combinedAt (s : Int) (p : Nat) (rs es : List Reservation) (j : Nat) : Bool :=
  slotReserved rs (slotStart s p j) (slotEnd s p j) ||
    slotReserved es (slotStart s p j) (slotEnd s p j)

/-- Modelled from the spec: number of slots emitted for the range `[s, e)`
with period `p`, `ceil((e - s) / p)`; `0` for an empty or reversed range,
and `0` for a zero period (where the source's iteration is out of the
spec's domain). -/
def numSlots (s e : Int) (p : Nat) : Nat :=
  if p = 0 then 0 else ((e - s).toNat + p - 1) / p

/-- Modelled from the spec: the `i`-th slot of the partition of `[s, ·)`
with period `p`, with its overlap flags against the confirmed list `rs` and
the editing list `es`, and the run-boundary flags computed by comparing the
combined reserved-or-editing state with the immediate neighbours (`n` is
the total number of slots; the first slot of the range counts as starting,
the last as ending). -/
def slotAt (s : Int) (p : Nat) (rs es : List Reservation) (n i : Nat) : Slot :=
  { start := slotStart s p i
    end_ := slotEnd s p i
    reserved := slotReserved rs (slotStart s p i) (slotEnd s p i)
    editing := slotReserved es (slotStart s p i) (slotEnd s p i)
    reservationStarting :=
      combinedAt s p rs es i && (decide (i = 0) || !combinedAt s p rs es (i - 1))
    reservationEnding :=
      combinedAt s p rs es i && (decide (i = n - 1) || !combinedAt s p rs es (i + 1)) }

/-- Modelled from the spec: `getTimeSlots(start, end, period, reservations,
reservationsToEdit)` of `utils/timeUtils`, absent from the sources.  If
`rangeStart` or `rangeEnd` is missing, the empty sequence is returned; the
period defaults to 30 minutes and both reservation lists default to empty;
otherwise the range is partitioned from `rangeStart` into slots of length
`period`, each annotated with its overlap state. -/
def getTimeSlots (rangeStart rangeEnd : Option Int) (period : Option Nat)
    (reservations reservationsToEdit : Option (List Reservation)) : List Slot :=
  match rangeStart, rangeEnd with
  | some s, some e =>
    let p := period.getD 30
    let rs := reservations.getD []
    let es := reservationsToEdit.getD []
    let n := numSlots s e p
    (List.range n).map (slotAt s p rs es n)
  | _, _ => []

/-- The `{start, end}` result of `getDateStartAndEndTimes`; the source field
`end` is embedded as `end_`. -/
structure DayTimes where
  start : String
  end_ : String
deriving DecidableEq

/-- Modelled from the spec: `getDateStartAndEndTimes(date)` of
`utils/timeUtils` (the spec's `dayBounds`), absent from the sources.  For a
non-empty calendar date string it returns the UTC instants
`{date}T00:00:00Z` and `{date}T23:59:59Z`; for a missing or empty date it
returns an empty result, modelled as `none`. -/
def getDateStartAndEndTimes (date : Option String) : Option DayTimes :=
  match date with
  | none => none
  | some d =>
    if d = "" then none
    else some { start := d ++ "T00:00:00Z", end_ := d ++ "T23:59:59Z" }

/-- Decimal rendering of a rational: plain integer when the denominator is
1, otherwise `num/den` (the minutes branch of `prettifyHours` only ever
renders integers in the spec's scenarios). -/
def ratStr (q : ℚ) : String :=
  if q.den = 1 then toString q.num else s!"{q.num}/{q.den}"

/-- Rendering of a count `n` of half-hours as the hour value `n / 2`:
`"{n/2}"` when even, `"{n/2}.5"` when odd. -/
def halvesStr (n : Int) : String :=
  if n % 2 = 0 then s!"{n / 2}" else s!"{n / 2}.5"

/-- Modelled from the spec: `prettifyHours(hours, showMinutes)` of
`utils/timeUtils` (the spec's `prettifyDuration`), absent from the sources.
If `showMinutes` is true and the value is below 0.5 hours it renders
`"{hours * 60} min"`; otherwise it rounds to the nearest 0.5 and renders
`"{value} h"`. -/
def prettifyHours (hours : ℚ) (showMinutes : Bool) : String :=
  if showMinutes ∧ hours < 1 / 2 then ratStr (hours * 60) ++ " min"
  else halvesStr (round (2 * hours)) ++ " h"

/-- From `TimeControls.js`: the option filter of `getEndTimeOptions` - an
option is pushed while `!slot.reserved || slot.editing`, and the loop exits
at the first slot that fails it. -/
def slotSelectable (slot : Slot) : Bool :=
  !slot.reserved || slot.editing

/-- JavaScript `Array.prototype.findIndex`: index of the first match, `-1`
when none matches. -/
def jsFindIndex (p : Slot → Bool) (l : List Slot) : Int :=
  match l.findIdx? p with
  | some i => (i : Int)
  | none => -1

/-- JavaScript `Array.prototype.slice(i)` with a possibly negative start
index: a negative `i` counts from the end of the array. -/
def jsSlice (l : List Slot) (i : Int) : List Slot :=
  if i < 0 then l.drop (l.length - (-i).toNat) else l.drop i.toNat

/-- From `TimeControls.js`: `getEndTimeOptions` - find the first slot whose
end is strictly after the begin time (`findIndex`, `-1` when none), slice
the slot list there, and collect each slot's end while
`!slot.reserved || slot.editing` holds, stopping at the first failure (the
`return false` exits the lodash `forEach`).  An option is embedded as the
slot's end instant (its label/value are that instant formatted). -/
def getEndTimeOptions (timeSlots : List Slot) (beginTime : Int) : List Int :=
  let firstPossibleIndex := jsFindIndex (fun slot => decide (beginTime < slot.end_)) timeSlots
  ((jsSlice timeSlots firstPossibleIndex).takeWhile slotSelectable).map Slot.end_

/-- The contiguous block described by claim C9, written from its words: the
options come from the block that starts at the first slot whose end is
strictly after the begin time (empty when there is none) and stops
immediately before the first subsequent slot that is reserved and not
editing. -/
def endOptionsSpec (timeSlots : List Slot) (beginTime : Int) : List Int :=
  ((timeSlots.drop
      (timeSlots.findIdx (fun slot => decide (beginTime < slot.end_)))).takeWhile
    slotSelectable).map Slot.end_

/-- A moment value as the components `TimeControls.js` manipulates: the
calendar fields of the instant in the frame in which `set({hour, minute})`
operates. -/
structure Moment where
  year : Int
  month : Nat
  day : Nat
  hour : Nat
  minute : Nat
  second : Nat
deriving DecidableEq

/-- Split a character list at each `':'`. -/
def splitCols : List Char → List (List Char)
  | [] => [[]]
  | c :: rest =>
    match splitCols rest with
    | [] => [[]]
    | grp :: grps => if c = ':' then [] :: grp :: grps else (c :: grp) :: grps

/-- Value of a decimal digit character, `none` for a non-digit. -/
def digitVal? (c : Char) : Option Nat :=
  if c.isDigit then some (c.toNat - Char.toNat '0') else none

/-- Accumulating decimal read of a digit list. -/
def digitsToNatAux : List Char → Nat → Option Nat
  | [], acc => some acc
  | c :: rest, acc =>
    match digitVal? c with
    | some d => digitsToNatAux rest (acc * 10 + d)
    | none => none

/-- Decimal value of a non-empty digit list, `none` otherwise. -/
def digitsToNat? (cs : List Char) : Option Nat :=
  match cs with
  | [] => none
  | _ => digitsToNatAux cs 0

/-- Parse of a `"HH:mm"` time string (the `timeFormat` default of
`TimeControls.js`): the hour and minute components, `none` when the string
is not of that shape (moment's invalid-date case). -/
def parseTimeHM (time : String) : Option (Nat × Nat) :=
  match (splitCols time.data).map digitsToNat? with
  | [some h, some m] => some (h, m)
  | _ => none

/-- From `TimeControls.js`: `updateWithTime(initialValue, time, timeFormat)`
- parse `time`, then set the hour and minute of `initialValue` from it,
leaving every other component unchanged. -/
def updateWithTime (initialValue : Moment) (time : String) : Option Moment :=
  (parseTimeHM time).map fun hm =>
    { initialValue with hour := hm.1, minute := hm.2 }

/-! ## Helper lemmas -/

theorem getTimeSlots_some_eq (s e : Int) (per : Option Nat)
    (rsO esO : Option (List Reservation)) :
    getTimeSlots (some s) (some e) per rsO esO =
      (List.range (numSlots s e (per.getD 30))).map
        (slotAt s (per.getD 30) (rsO.getD []) (esO.getD [])
          (numSlots s e (per.getD 30))) := rfl

theorem getTimeSlots_length (s e : Int) (per : Option Nat)
    (rsO esO : Option (List Reservation)) :
    (getTimeSlots (some s) (some e) per rsO esO).length =
      numSlots s e (per.getD 30) := by
  rw [getTimeSlots_some_eq]
  simp

theorem getTimeSlots_getElem? (s e : Int) (per : Option Nat)
    (rsO esO : Option (List Reservation)) (i : Nat) :
    (getTimeSlots (some s) (some e) per rsO esO)[i]? =
      if i < numSlots s e (per.getD 30) then
        some (slotAt s (per.getD 30) (rsO.getD []) (esO.getD [])
          (numSlots s e (per.getD 30)) i)
      else none := by
  rw [getTimeSlots_some_eq]
  by_cases hi : i < numSlots s e (per.getD 30)
  · rw [if_pos hi, List.getElem?_eq_getElem (by simpa using hi)]
    simp
  · rw [if_neg hi, List.getElem?_eq_none]
    simpa using hi

theorem numSlots_exact (s : Int) {p k : Nat} (hp : 0 < p) :
    numSlots s (s + (k : Int) * (p : Int)) p = k := by
  have hp' : p ≠ 0 := Nat.pos_iff_ne_zero.mp hp
  have h0 : s + (k : Int) * (p : Int) - s = ((k * p : Nat) : Int) := by
    push_cast
    ring
  rw [numSlots, if_neg hp', h0, Int.toNat_natCast]
  have hmul : k * p = p * k := Nat.mul_comm k p
  have h2 : k * p + p - 1 = p - 1 + p * k := by omega
  rw [h2, Nat.add_mul_div_left _ _ hp, Nat.div_eq_of_lt (by omega), Nat.zero_add]

theorem slotAt_combined (s : Int) (p : Nat) (rs es : List Reservation) (n i : Nat) :
    ((slotAt s p rs es n i).reserved || (slotAt s p rs es n i).editing) =
      combinedAt s p rs es i := rfl

/-! ## Claim theorems -/

/-- Claim C5: when `rangeStart` or `rangeEnd` is missing, `getTimeSlots`
returns the empty sequence; the embedding is a total function, so no error
is signaled. -/
theorem getTimeSlots_missing_bound_empty :
    ∀ (sOpt eOpt : Option Int) (per : Option Nat)
      (rsO esO : Option (List Reservation)),
      getTimeSlots none eOpt per rsO esO = [] ∧
      getTimeSlots sOpt none per rsO esO = [] := by
  intro sOpt eOpt per rsO esO
  refine ⟨?_, ?_⟩
  · cases eOpt <;> rfl
  · cases sOpt <;> rfl

/-- Claim C6: with the period omitted, `getTimeSlots` behaves as with a
30-minute period; with either reservation list omitted (the other
arbitrary) it behaves as with that list empty, so every slot of a call
without confirmed reservations has `reserved = false`. -/
theorem getTimeSlots_defaults :
    (∀ (sOpt eOpt : Option Int) (rsO esO : Option (List Reservation)),
      getTimeSlots sOpt eOpt none rsO esO =
        getTimeSlots sOpt eOpt (some 30) rsO esO) ∧
    (∀ (sOpt eOpt : Option Int) (per : Option Nat)
      (esO : Option (List Reservation)),
      getTimeSlots sOpt eOpt per none esO =
        getTimeSlots sOpt eOpt per (some []) esO) ∧
    (∀ (sOpt eOpt : Option Int) (per : Option Nat)
      (rsO : Option (List Reservation)),
      getTimeSlots sOpt eOpt per rsO none =
        getTimeSlots sOpt eOpt per rsO (some [])) ∧
    (∀ (sOpt eOpt : Option Int) (per : Option Nat)
      (esO : Option (List Reservation)) (slot : Slot),
      slot ∈ getTimeSlots sOpt eOpt per none esO → slot.reserved = false) := by
  refine ⟨?_, ?_, ?_, ?_⟩
  · intro sOpt eOpt rsO esO
    cases sOpt <;> cases eOpt <;> rfl
  · intro sOpt eOpt per esO
    cases sOpt <;> cases eOpt <;> rfl
  · intro sOpt eOpt per rsO
    cases sOpt <;> cases eOpt <;> rfl
  · intro sOpt eOpt per esO slot hmem
    cases sOpt with
    | none => simp [getTimeSlots] at hmem
    | some s =>
      cases eOpt with
      | none => simp [getTimeSlots] at hmem
      | some e =>
        rw [getTimeSlots_some_eq] at hmem
        obtain ⟨i, _, rfl⟩ := List.mem_map.mp hmem
        rfl

/-- Witness for claim C6 at the 2-hour/30-minute scenario with both lists
omitted. -/
theorem getTimeSlots_defaults_witness :
    (⟨300, 330, false, false, false, false⟩ : Slot) ∈
        getTimeSlots (some 300) (some 420) (some 30) none none ∧
    (⟨300, 330, false, false, false, false⟩ : Slot).reserved = false :=
  ⟨by decide,
    getTimeSlots_defaults.2.2.2 (some 300) (some 420) (some 30) none
      ⟨300, 330, false, false, false, false⟩ (by decide)⟩

/-- Claim C7: for a non-empty calendar date `d`, `getDateStartAndEndTimes`
returns the UTC instants `dT00:00:00Z` and `dT23:59:59Z`; for a missing or
empty date it returns the empty result (`none`), not an error. -/
theorem getDateStartAndEndTimes_spec :
    (∀ d : String, d ≠ "" →
      getDateStartAndEndTimes (some d) =
        some { start := d ++ "T00:00:00Z", end_ := d ++ "T23:59:59Z" }) ∧
    getDateStartAndEndTimes none = none ∧
    getDateStartAndEndTimes (some "") = none := by
  refine ⟨fun d hd => ?_, rfl, by simp [getDateStartAndEndTimes]⟩
  simp [getDateStartAndEndTimes, hd]

/-- Witness for claim C7 at the test suite's date `2015-10-10`. -/
theorem getDateStartAndEndTimes_spec_witness :
    ("2015-10-10" : String) ≠ "" ∧
    getDateStartAndEndTimes (some "2015-10-10") =
      some { start := "2015-10-10T00:00:00Z", end_ := "2015-10-10T23:59:59Z" } :=
  ⟨by decide, getDateStartAndEndTimes_spec.1 "2015-10-10" (by decide)⟩

/-- Claim C1: for a range that is an exact multiple `k` of the period,
`getTimeSlots` returns exactly `k` slots, the first starting at the (UTC)
range start and the last ending at the (UTC) range end. -/
theorem getTimeSlots_exact_multiple (s e : Int) (p k : Nat)
    (rsO esO : Option (List Reservation)) (hp : 0 < p) (hk : 0 < k)
    (he : e = s + (k : Int) * (p : Int)) :
    (getTimeSlots (some s) (some e) (some p) rsO esO).length = k ∧
    (getTimeSlots (some s) (some e) (some p) rsO esO).head?.map Slot.start =
      some s ∧
    (getTimeSlots (some s) (some e) (some p) rsO esO).getLast?.map Slot.end_ =
      some e := by
  subst he
  have hn : numSlots s (s + (k : Int) * (p : Int)) p = k := numSlots_exact s hp
  obtain ⟨k', rfl⟩ : ∃ k', k = k' + 1 := ⟨k - 1, by omega⟩
  rw [getTimeSlots_some_eq]
  simp only [Option.getD_some] at *
  rw [hn]
  refine ⟨by simp, ?_, ?_⟩
  · rw [List.range_succ_eq_map]
    simp [slotAt, slotStart]
  · rw [List.range_succ, List.map_append]
    simp only [List.map_cons, List.map_nil, List.getLast?_concat, Option.map_some]
    simp [slotAt, slotEnd, slotStart]

/-- Witness for claim C1 at the test scenario: 2 hours split into 30-minute
slots gives 4 slots from the range start to the range end. -/
theorem getTimeSlots_exact_multiple_witness :
    (0 < 30 ∧ 0 < 4 ∧ (420 : Int) = 300 + ((4 : Nat) : Int) * ((30 : Nat) : Int)) ∧
    ((getTimeSlots (some 300) (some 420) (some 30) none none).length = 4 ∧
     (getTimeSlots (some 300) (some 420) (some 30) none none).head?.map
       Slot.start = some 300 ∧
     (getTimeSlots (some 300) (some 420) (some 30) none none).getLast?.map
       Slot.end_ = some 420) :=
  ⟨⟨by decide, by decide, by decide⟩,
    getTimeSlots_exact_multiple 300 420 30 4 none none (by decide) (by decide)
      (by decide)⟩

/-- Claim C2: a slot of `getTimeSlots` is `reserved` iff some confirmed
interval strictly overlaps it (`slot.start < interval.end` and
`slot.end > interval.begin`), identically for `editing` over the editing
list; a slot that only touches reservation boundaries is never reserved. -/
theorem getTimeSlots_reserved_iff (s e : Int) (per : Option Nat)
    (rs es : List Reservation) (slot : Slot)
    (hmem : slot ∈ getTimeSlots (some s) (some e) per (some rs) (some es)) :
    (slot.reserved = true ↔
      ∃ r ∈ rs, slot.start < r.end_ ∧ slot.end_ > r.begin) ∧
    (slot.editing = true ↔
      ∃ r ∈ es, slot.start < r.end_ ∧ slot.end_ > r.begin) ∧
    ((∀ r ∈ rs, slot.end_ = r.begin ∨ slot.start = r.end_) →
      slot.reserved = false) := by
  rw [getTimeSlots_some_eq] at hmem
  obtain ⟨i, _, rfl⟩ := List.mem_map.mp hmem
  refine ⟨?_, ?_, ?_⟩
  · simp [slotAt, slotReserved, overlapsB, List.any_eq_true, gt_iff_lt,
      and_comm]
  · simp [slotAt, slotReserved, overlapsB, List.any_eq_true, gt_iff_lt,
      and_comm]
  · intro htouch
    rw [← Bool.not_eq_true]
    simp only [slotAt, slotReserved, overlapsB, List.any_eq_true,
      Bool.and_eq_true, decide_eq_true_eq, gt_iff_lt, not_exists]
    rintro r ⟨hr, hlt1, hlt2⟩
    rcases htouch r hr with hEq | hEq <;> simp [slotAt] at hEq <;> omega

/-- Witness for claim C2 at the test scenario: the slot `[330, 360)` of the
range `[300, 420)` with one confirmed reservation `[330, 390)`. -/
theorem getTimeSlots_reserved_iff_witness :
    (⟨330, 360, true, false, true, false⟩ : Slot) ∈
        getTimeSlots (some 300) (some 420) (some 30)
          (some [⟨330, 390⟩]) (some []) ∧
    (((⟨330, 360, true, false, true, false⟩ : Slot).reserved = true ↔
      ∃ r ∈ [(⟨330, 390⟩ : Reservation)],
        (330 : Int) < r.end_ ∧ (360 : Int) > r.begin) ∧
     ((⟨330, 360, true, false, true, false⟩ : Slot).editing = true ↔
      ∃ r ∈ ([] : List Reservation),
        (330 : Int) < r.end_ ∧ (360 : Int) > r.begin) ∧
     ((∀ r ∈ [(⟨330, 390⟩ : Reservation)],
        (360 : Int) = r.begin ∨ (330 : Int) = r.end_) →
      (⟨330, 360, true, false, true, false⟩ : Slot).reserved = false)) :=
  ⟨by decide,
    getTimeSlots_reserved_iff 300 420 (some 30) [⟨330, 390⟩] []
      ⟨330, 360, true, false, true, false⟩ (by decide)⟩

/-- Claim C3: a slot's `reservationStarting` is true iff it is reserved (or
editing) and either it is the first slot of the range or its predecessor is
not in the reserved-or-editing state (first slot of a contiguous run);
symmetrically `reservationEnding` holds iff it is the last slot of such a
run. -/
theorem getTimeSlots_run_boundaries (s e : Int) (per : Option Nat)
    (rsO esO : Option (List Reservation)) (i : Nat) (slot : Slot)
    (hi : (getTimeSlots (some s) (some e) per rsO esO)[i]? = some slot) :
    (slot.reservationStarting = true ↔
      ((slot.reserved = true ∨ slot.editing = true) ∧
        (i = 0 ∨ ∀ prev,
          (getTimeSlots (some s) (some e) per rsO esO)[i - 1]? = some prev →
            ¬(prev.reserved = true ∨ prev.editing = true)))) ∧
    (slot.reservationEnding = true ↔
      ((slot.reserved = true ∨ slot.editing = true) ∧
        (i = (getTimeSlots (some s) (some e) per rsO esO).length - 1 ∨
          ∀ nxt,
            (getTimeSlots (some s) (some e) per rsO esO)[i + 1]? = some nxt →
              ¬(nxt.reserved = true ∨ nxt.editing = true)))) := by
  rw [getTimeSlots_getElem?] at hi
  by_cases hilt : i < numSlots s e (per.getD 30)
  swap
  · rw [if_neg hilt] at hi
    exact absurd hi (by simp)
  rw [if_pos hilt] at hi
  obtain rfl := (Option.some.injEq _ _).mp hi.symm
  rw [getTimeSlots_length]
  have hcomb : ∀ j : Nat,
      ((slotAt s (per.getD 30) (rsO.getD []) (esO.getD [])
          (numSlots s e (per.getD 30)) j).reserved = true ∨
        (slotAt s (per.getD 30) (rsO.getD []) (esO.getD [])
          (numSlots s e (per.getD 30)) j).editing = true) ↔
      combinedAt s (per.getD 30) (rsO.getD []) (esO.getD []) j = true := by
    intro j
    rw [← slotAt_combined s (per.getD 30) (rsO.getD []) (esO.getD [])
      (numSlots s e (per.getD 30)) j, Bool.or_eq_true]
  constructor
  · show (combinedAt _ _ _ _ i &&
        (decide (i = 0) || !combinedAt _ _ _ _ (i - 1))) = true ↔ _
    rw [Bool.and_eq_true, Bool.or_eq_true, Bool.not_eq_true',
      decide_eq_true_eq, hcomb i]
    apply and_congr_right
    intro _
    by_cases h0 : i = 0
    · simp [h0]
    · have hprev : i - 1 < numSlots s e (per.getD 30) := by omega
      rw [getTimeSlots_getElem?, if_pos hprev]
      constructor
      · rintro (h0' | hfalse)
        · exact Or.inl h0'
        · refine Or.inr fun prev hprev' => ?_
          obtain rfl := (Option.some.injEq _ _).mp hprev'.symm
          rw [hcomb (i - 1), hfalse]
          simp
      · rintro (h0' | hall)
        · exact Or.inl h0'
        · refine Or.inr ?_
          have hne := hall _ rfl
          rw [hcomb (i - 1)] at hne
          exact Bool.not_eq_true _ ▸ hne
  · show (combinedAt _ _ _ _ i &&
        (decide (i = numSlots s e (per.getD 30) - 1) ||
          !combinedAt _ _ _ _ (i + 1))) = true ↔ _
    rw [Bool.and_eq_true, Bool.or_eq_true, Bool.not_eq_true',
      decide_eq_true_eq, hcomb i]
    apply and_congr_right
    intro _
    by_cases hlast : i = numSlots s e (per.getD 30) - 1
    · simp [hlast]
    · have hnxt : i + 1 < numSlots s e (per.getD 30) := by omega
      rw [getTimeSlots_getElem?, if_pos hnxt]
      constructor
      · rintro (h0' | hfalse)
        · exact Or.inl h0'
        · refine Or.inr fun nxt hnxt' => ?_
          obtain rfl := (Option.some.injEq _ _).mp hnxt'.symm
          rw [hcomb (i + 1), hfalse]
          simp
      · rintro (h0' | hall)
        · exact Or.inl h0'
        · refine Or.inr ?_
          have hne := hall _ rfl
          rw [hcomb (i + 1)] at hne
          exact Bool.not_eq_true _ ▸ hne

/-- Witness for claim C3 at the scenario of the test suite: range
`[300, 390)`, one reservation covering the whole range, middle slot
(index 1). -/
theorem getTimeSlots_run_boundaries_witness :
    ((getTimeSlots (some 300) (some 390) (some 30) (some [⟨300, 390⟩])
        none)[1]? = some ⟨330, 360, true, false, false, false⟩) ∧
    (((⟨330, 360, true, false, false, false⟩ : Slot).reservationStarting = true ↔
      (((⟨330, 360, true, false, false, false⟩ : Slot).reserved = true ∨
          (⟨330, 360, true, false, false, false⟩ : Slot).editing = true) ∧
        ((1 : Nat) = 0 ∨ ∀ prev,
          (getTimeSlots (some 300) (some 390) (some 30) (some [⟨300, 390⟩])
              none)[1 - 1]? = some prev →
            ¬(prev.reserved = true ∨ prev.editing = true)))) ∧
     ((⟨330, 360, true, false, false, false⟩ : Slot).reservationEnding = true ↔
      (((⟨330, 360, true, false, false, false⟩ : Slot).reserved = true ∨
          (⟨330, 360, true, false, false, false⟩ : Slot).editing = true) ∧
        ((1 : Nat) =
            (getTimeSlots (some 300) (some 390) (some 30) (some [⟨300, 390⟩])
              none).length - 1 ∨
          ∀ nxt,
            (getTimeSlots (some 300) (some 390) (some 30) (some [⟨300, 390⟩])
                none)[1 + 1]? = some nxt →
              ¬(nxt.reserved = true ∨ nxt.editing = true))))) :=
  ⟨by decide,
    getTimeSlots_run_boundaries 300 390 (some 30) (some [⟨300, 390⟩]) none 1
      ⟨330, 360, true, false, false, false⟩ (by decide)⟩

/-- Claim C4: consecutive slots of `getTimeSlots` are contiguous - each
slot's end is the next slot's start - and each slot is nonempty, so the
sequence is strictly increasing with no gaps and no overlaps. -/
theorem getTimeSlots_contiguous (s e : Int) (per : Option Nat)
    (rsO esO : Option (List Reservation)) (i : Nat) (slot1 slot2 : Slot)
    (h1 : (getTimeSlots (some s) (some e) per rsO esO)[i]? = some slot1)
    (h2 : (getTimeSlots (some s) (some e) per rsO esO)[i + 1]? = some slot2) :
    slot1.end_ = slot2.start ∧ slot1.start < slot1.end_ := by
  rw [getTimeSlots_getElem?] at h1 h2
  by_cases hi2 : i + 1 < numSlots s e (per.getD 30)
  swap
  · rw [if_neg hi2] at h2
    exact absurd h2 (by simp)
  have hi1 : i < numSlots s e (per.getD 30) := by omega
  rw [if_pos hi1] at h1
  rw [if_pos hi2] at h2
  obtain rfl := (Option.some.injEq _ _).mp h1.symm
  obtain rfl := (Option.some.injEq _ _).mp h2.symm
  have hp : 0 < per.getD 30 := by
    rcases Nat.eq_zero_or_pos (per.getD 30) with hz | hpos
    · rw [numSlots, if_pos hz] at hi2
      omega
    · exact hpos
  refine ⟨rfl, ?_⟩
  show slotStart s (per.getD 30) i < slotEnd s (per.getD 30) i
  rw [slotEnd, slotStart, slotStart]
  have hcast : ((i + 1 : Nat) : Int) * ((per.getD 30 : Nat) : Int) =
      (i : Int) * ((per.getD 30 : Nat) : Int) + ((per.getD 30 : Nat) : Int) := by
    push_cast
    ring
  rw [hcast]
  have hpz : (0 : Int) < ((per.getD 30 : Nat) : Int) := by exact_mod_cast hp
  omega

/-- Witness for claim C4 at the first pair of slots of the 2-hour
scenario. -/
theorem getTimeSlots_contiguous_witness :
    ((getTimeSlots (some 300) (some 420) (some 30) none none)[0]? =
      some ⟨300, 330, false, false, false, false⟩) ∧
    ((getTimeSlots (some 300) (some 420) (some 30) none none)[0 + 1]? =
      some ⟨330, 360, false, false, false, false⟩) ∧
    ((⟨300, 330, false, false, false, false⟩ : Slot).end_ =
      (⟨330, 360, false, false, false, false⟩ : Slot).start ∧
     (⟨300, 330, false, false, false, false⟩ : Slot).start <
      (⟨300, 330, false, false, false, false⟩ : Slot).end_) :=
  ⟨by decide, by decide,
    getTimeSlots_contiguous 300 420 (some 30) none none 0
      ⟨300, 330, false, false, false, false⟩
      ⟨330, 360, false, false, false, false⟩ (by decide) (by decide)⟩

theorem string_data_append (a b : String) : (a ++ b).data = a.data ++ b.data := by
  cases a
  cases b
  rfl

theorem min_form_ne_h_form (a b : String) : a ++ " min" ≠ b ++ " h" := by
  intro hcontra
  have hdata := congrArg String.data hcontra
  rw [string_data_append, string_data_append] at hdata
  have h1 : (" min" : String).data = ' ' :: ['m', 'i', 'n'] := rfl
  have h2 : (" h" : String).data = ' ' :: ['h'] := rfl
  rw [h1, h2] at hdata
  have hlast := congrArg List.getLast? hdata
  rw [List.getLast?_append_cons, List.getLast?_append_cons] at hlast
  exact absurd hlast (by decide)

/-- Claim C8: `prettifyHours` renders `"{minutes} min"` (with
`minutes = hours * 60`) exactly when `showMinutes` is true and the value is
below 0.5 hours, and otherwise `"{value} h"` with the value rounded to the
nearest 0.5; in particular the three renderings quoted by the spec. -/
theorem prettifyHours_spec :
    (∀ (h : ℚ) (sm : Bool),
      ((sm = true ∧ h < 1 / 2) ↔
        prettifyHours h sm = ratStr (h * 60) ++ " min") ∧
      (¬(sm = true ∧ h < 1 / 2) ↔
        prettifyHours h sm = halvesStr (round (2 * h)) ++ " h")) ∧
    prettifyHours 0.3 true = "18 min" ∧
    prettifyHours 0.3 false = "0.5 h" ∧
    prettifyHours 2.3 false = "2.5 h" := by
  refine ⟨fun h sm => ⟨⟨fun hc => ?_, fun hEq => ?_⟩, ⟨fun hc => ?_, fun hEq => ?_⟩⟩,
    ?_, ?_, ?_⟩
  · rw [prettifyHours, if_pos hc]
  · by_contra hc
    rw [prettifyHours, if_neg hc] at hEq
    exact min_form_ne_h_form _ _ hEq.symm
  · rw [prettifyHours, if_neg hc]
  · intro hc
    rw [prettifyHours, if_pos hc] at hEq
    exact min_form_ne_h_form _ _ hEq
  · rw [prettifyHours, if_pos (⟨rfl, by norm_num⟩ : (true = true) ∧ (0.3 : ℚ) < 1 / 2)]
    have h18 : (0.3 : ℚ) * 60 = 18 := by norm_num
    rw [h18]
    have hden : ratStr 18 = toString (18 : ℚ).num := by
      rw [ratStr, if_pos (by norm_num)]
    rw [hden]
    have hnum : (18 : ℚ).num = 18 := by norm_num
    rw [hnum]
    decide
  · rw [prettifyHours, if_neg (by simp)]
    have hr : round (2 * (0.3 : ℚ)) = 1 := by norm_num [round_eq]
    rw [hr]
    decide
  · rw [prettifyHours, if_neg (by simp)]
    have hr : round (2 * (2.3 : ℚ)) = 5 := by norm_num [round_eq]
    rw [hr]
    decide

/-- Witness for claim C8 at `hours = 2.3`, `showMinutes = false` (the
hours branch). -/
theorem prettifyHours_spec_witness :
    ¬((false = true) ∧ (2.3 : ℚ) < 1 / 2) ∧
    prettifyHours 2.3 false = halvesStr (round (2 * (2.3 : ℚ))) ++ " h" :=
  ⟨by simp, ((prettifyHours_spec.1 2.3 false).2).mp (by simp)⟩

/-- Claim C9 as stated is false on the code: when no slot's end is after
the begin time, JavaScript `findIndex` returns `-1` and `slice(-1)` keeps
the final slot, so `getEndTimeOptions` can return an option lying beyond a
reserved non-editing slot; here the block described by the claim is empty
but the code returns the last slot's end. -/
theorem getEndTimeOptions_counterexample :
    getEndTimeOptions
        [⟨0, 10, true, false, false, false⟩, ⟨10, 20, false, false, false, false⟩]
        30 ≠
      endOptionsSpec
        [⟨0, 10, true, false, false, false⟩, ⟨10, 20, false, false, false, false⟩]
        30 := by
  decide

/-- Claim C9, amended: provided some slot's end is strictly after the begin
time, `getEndTimeOptions` returns exactly the contiguous block that starts
at the first such slot and stops immediately before the first subsequent
slot that is reserved and not editing. -/
theorem getEndTimeOptions_after_begin (timeSlots : List Slot) (beginTime : Int)
    (hex : ∃ slot ∈ timeSlots, beginTime < slot.end_) :
    getEndTimeOptions timeSlots beginTime = endOptionsSpec timeSlots beginTime := by
  have hex' : ∃ x, x ∈ timeSlots ∧
      (fun slot => decide (beginTime < slot.end_)) x = true := by
    obtain ⟨sl, hmem, hlt⟩ := hex
    exact ⟨sl, hmem, by simpa using hlt⟩
  have hfi : jsFindIndex (fun slot => decide (beginTime < slot.end_)) timeSlots =
      ((timeSlots.findIdx (fun slot => decide (beginTime < slot.end_)) : Nat) : Int) := by
    rw [jsFindIndex, List.findIdx?_eq_some_of_exists hex']
  rw [getEndTimeOptions, endOptionsSpec, hfi, jsSlice,
    if_neg (by omega), Int.toNat_natCast]

/-- Witness for the amended claim C9 at a one-slot list whose end is after
the begin time. -/
theorem getEndTimeOptions_after_begin_witness :
    (∃ slot ∈ [(⟨0, 10, false, false, false, false⟩ : Slot)],
      (5 : Int) < slot.end_) ∧
    getEndTimeOptions [⟨0, 10, false, false, false, false⟩] 5 =
      endOptionsSpec [⟨0, 10, false, false, false, false⟩] 5 :=
  ⟨by decide,
    getEndTimeOptions_after_begin [⟨0, 10, false, false, false, false⟩] 5
      (by decide)⟩

/-- Claim C10: `updateWithTime` takes the hour and minute from the time
string and leaves every other component of the initial instant (year,
month, day, seconds) unchanged. -/
theorem updateWithTime_sets_time_only (initialValue : Moment) (time : String)
    (hh mm : Nat) (hparse : parseTimeHM time = some (hh, mm)) :
    updateWithTime initialValue time =
      some { year := initialValue.year, month := initialValue.month,
             day := initialValue.day, hour := hh, minute := mm,
             second := initialValue.second } := by
  simp [updateWithTime, hparse]

/-- Witness for claim C10 at the instant 2015-10-09 08:00:00 and the time
string `13:45`. -/
theorem updateWithTime_sets_time_only_witness :
    parseTimeHM "13:45" = some (13, 45) ∧
    updateWithTime ⟨2015, 10, 9, 8, 0, 0⟩ "13:45" =
      some ⟨2015, 10, 9, 13, 45, 0⟩ :=
  ⟨by decide,
    updateWithTime_sets_time_only ⟨2015, 10, 9, 8, 0, 0⟩ "13:45" 13 45
      (by decide)⟩

end Varaamo
